import Mathlib

/-!
Verification of the question-extraction and quiz-agent code of this
repository (`extract_questions.py`, `aws_quiz_agent.py`).

Python strings are modelled as `List Char`.  The Python string helpers
used by the code (`strip`, `lower`, `startswith`, `split`, slicing) are
modelled below; `strip` and `lower` are modelled on the ASCII range,
which covers all marker and keyword comparisons the code performs.
-/

/-- Characters removed by Python `str.strip` (ASCII whitespace range). -/
def isPySpace (c : Char) : Bool :=
  c = ' ' || c = '\t' || c = '\n' || c = '\r' || c = '\x0b' || c = '\x0c'

/-- Python `str.strip`: remove leading and trailing whitespace. -/
def pyStrip (s : List Char) : List Char :=
  ((s.dropWhile isPySpace).reverse.dropWhile isPySpace).reverse

/-- Python `str.lower`, restricted to ASCII letters. -/
def pyLower (s : List Char) : List Char := s.map Char.toLower

/-- Python universal-newline translation, applied by every text-mode
`open(path, 'r')` with the default `newline=None` (both the README read
of `extract_questions_from_readme` and the CSV read of
`_load_questions`): CR LF and lone CR both become LF. -/
def universalNewlines : List Char → List Char
  | [] => []
  | [c] => if c = '\r' then ['\n'] else [c]
  | c :: c2 :: rest =>
    if c = '\r' then
      if c2 = '\n' then '\n' :: universalNewlines rest
      else '\n' :: universalNewlines (c2 :: rest)
    else c :: universalNewlines (c2 :: rest)

/-- Python `str.split(sep)` for a single-character separator. -/
def splitOnChar (sep : Char) : List Char → List (List Char)
  | [] => [[]]
  | c :: rest =>
    if c = sep then [] :: splitOnChar sep rest
    else
      match splitOnChar sep rest with
      | [] => [[c]]
      | l :: ls => (c :: l) :: ls

/-- Python `str.split('\n')`, as used on a question block. -/
def splitLines (s : List Char) : List (List Char) := splitOnChar '\n' s

/-- The literal separator of `re.split(r'\n### ', content)` in
`extract_questions_from_readme`. -/
def sectionSep : List Char := "\n### ".toList

/-- Fuel-driven worker for `splitSections`; the fuel is the input length
plus one, which is always sufficient since every step consumes at least
one character. -/
def splitSecAux : Nat → List Char → List Char → List (List Char)
  | 0, s, acc => [acc.reverse ++ s]
  | fuel + 1, s, acc =>
    match s with
    | [] => [acc.reverse]
    | c :: rest =>
      if sectionSep.isPrefixOf (c :: rest) then
        acc.reverse :: splitSecAux fuel (List.drop 5 (c :: rest)) []
      else
        splitSecAux fuel rest (c :: acc)

/-- Model of `re.split(r'\n### ', content)`: split on every occurrence of
the literal separator, left to right, non-overlapping. -/
def splitSections (content : List Char) : List (List Char) :=
  splitSecAux (content.length + 1) content []

/-- The unchecked option marker `- [ ]` of `extract_questions_from_readme`. -/
def uncheckedMarker : List Char := "- [ ]".toList

/-- The checked option marker `- [x]` of `extract_questions_from_readme`. -/
def checkedMarker : List Char := "- [x]".toList

/-- Model of `line.startswith('- [ ]') or line.startswith('- [x]')`. -/
def isOptionLine (line : List Char) : Bool :=
  uncheckedMarker.isPrefixOf line || checkedMarker.isPrefixOf line

/-- Model of `line.startswith('- [x]')`. -/
def isCheckedLine (line : List Char) : Bool := checkedMarker.isPrefixOf line

/-- Model of the navigation-boilerplate test of the extraction loop:
`line.startswith('[⬆ Back to Top]') or line.startswith('**[⬆ Back to Top]')`. -/
def isBoilerplate (line : List Char) : Bool :=
  "[⬆ Back to Top]".toList.isPrefixOf line ||
    "**[⬆ Back to Top]".toList.isPrefixOf line

/-- Model of the option-collection loop of `extract_questions_from_readme`
over `lines[1:]`: returns the pair `(answer_choices, correct_answers)`,
in document order. -/
def extractOptions : List (List Char) → List (List Char) × List (List Char)
  | [] => ([], [])
  | l :: rest =>
    let line := pyStrip l
    let r := extractOptions rest
    if line = [] ∨ isBoilerplate line then r
    else if isOptionLine line then
      (pyStrip (line.drop 5) :: r.1,
        if isCheckedLine line then pyStrip (line.drop 5) :: r.2 else r.2)
    else r

/-- The record appended per retained block by
`extract_questions_from_readme` (Python dict with keys QUESTION,
ANSWER_CHOICES, ANSWERS, EXPLANATIONS). -/
structure Question where
  QUESTION : List Char
  ANSWER_CHOICES : List (List Char)
  ANSWERS : List (List Char)
  EXPLANATIONS : List Char
deriving DecidableEq

/-- Processing of one section of the loop body of
`extract_questions_from_readme`: `none` models `continue` / a block that
is never appended to the result list. -/
def parseSection (sec : List Char) : Option Question :=
  if pyStrip sec = [] then none
  else
    let lines := splitLines (pyStrip sec)
    let question_text := pyStrip (lines.headD [])
    if pyLower question_text = "placeholder".toList ∨ question_text = [] then none
    else
      let oc := extractOptions lines.tail
      if oc.1 ≠ [] ∧ oc.2 ≠ [] then
        some { QUESTION := question_text, ANSWER_CHOICES := oc.1,
               ANSWERS := oc.2, EXPLANATIONS := [] }
      else none

/-- Model of `extract_questions_from_readme` applied to the raw file
text: the function opens the README in text mode (`open(path, 'r',
encoding='utf-8')` with the default `newline=None`), so universal-newline
translation is applied to the content before anything else; then split on
`\n### `, skip the first section, and process each remaining section in
order. -/
def extract_questions_from_readme (content : List Char) : List Question :=
  ((splitSections (universalNewlines content)).tail).filterMap parseSection

/-- Specification-side definition (from the spec's words, for claim C1):
the texts of the option lines whose stripped form begins with the checked
marker, in document order. -/
def checkedTexts (ls : List (List Char)) : List (List Char) :=
  ((ls.map pyStrip).filter (fun l => isCheckedLine l)).map (fun l => pyStrip (l.drop 5))

/-- Specification-side definition (from the spec's words, for claim C2):
all text of the block preceding the first option line, i.e. the lines of
the stripped block before the first line whose stripped form is an option
line, joined back with newlines. -/
def specStem (sec : List Char) : List Char :=
  List.intercalate ['\n']
    ((splitLines (pyStrip sec)).takeWhile (fun l => !(isOptionLine (pyStrip l))))

lemma isPrefixOf_cons_iff (a : Char) (as l : List Char) :
    List.isPrefixOf (a :: as) l = true ↔ ∃ t, l = a :: t ∧ List.isPrefixOf as t = true := by
  cases l with
  | nil => simp [List.isPrefixOf]
  | cons b bs =>
    simp only [List.isPrefixOf, Bool.and_eq_true, beq_iff_eq, List.cons.injEq]
    constructor
    · rintro ⟨rfl, h⟩; exact ⟨bs, ⟨rfl, rfl⟩, h⟩
    · rintro ⟨t, ⟨rfl, rfl⟩, h⟩; exact ⟨rfl, h⟩

lemma isPrefixOf_false_of_head_ne (a b : Char) (as bs : List Char) (h : a ≠ b) :
    List.isPrefixOf (a :: as) (b :: bs) = false := by
  simp [List.isPrefixOf, h]

lemma isCheckedLine_head (line : List Char) (h : isCheckedLine line = true) :
    ∃ t, line = '-' :: t := by
  unfold isCheckedLine checkedMarker at h
  rw [show ("- [x]".toList) = '-' :: (" [x]".toList) from rfl, isPrefixOf_cons_iff] at h
  obtain ⟨t, ht, -⟩ := h
  exact ⟨t, ht⟩

lemma isCheckedLine_ne_nil (line : List Char) (h : isCheckedLine line = true) :
    line ≠ [] := by
  obtain ⟨t, rfl⟩ := isCheckedLine_head line h
  simp

lemma isBoilerplate_of_checked (line : List Char) (h : isCheckedLine line = true) :
    isBoilerplate line = false := by
  obtain ⟨t, rfl⟩ := isCheckedLine_head line h
  unfold isBoilerplate
  rw [show ("[⬆ Back to Top]".toList) = '[' :: ("⬆ Back to Top]".toList) from rfl,
    show ("**[⬆ Back to Top]".toList) = '*' :: ("*[⬆ Back to Top]".toList) from rfl,
    isPrefixOf_false_of_head_ne _ _ _ _ (by decide),
    isPrefixOf_false_of_head_ne _ _ _ _ (by decide)]
  rfl

lemma isOptionLine_of_checked (line : List Char) (h : isCheckedLine line = true) :
    isOptionLine line = true := by
  unfold isOptionLine
  unfold isCheckedLine at h
  simp [h]

lemma checked_false_of_skip (line : List Char)
    (h : line = [] ∨ isBoilerplate line = true) : isCheckedLine line = false := by
  rcases h with rfl | h
  · decide
  · by_contra hc
    rw [Bool.not_eq_false] at hc
    rw [isBoilerplate_of_checked line hc] at h
    exact Bool.false_ne_true h

lemma extractOptions_snd_eq_checkedTexts (ls : List (List Char)) :
    (extractOptions ls).2 = checkedTexts ls := by
  induction ls with
  | nil => rfl
  | cons l rest ih =>
    simp only [extractOptions, checkedTexts, List.map_cons, List.filter_cons]
    by_cases hskip : pyStrip l = [] ∨ isBoilerplate (pyStrip l)
    · rw [if_pos hskip, checked_false_of_skip (pyStrip l) (by simpa using hskip)]
      simpa [checkedTexts] using ih
    · rw [if_neg hskip]
      by_cases hopt : isOptionLine (pyStrip l) = true
      · rw [if_pos hopt]
        by_cases hch : isCheckedLine (pyStrip l) = true
        · rw [hch]
          simpa [checkedTexts, hch] using congrArg (List.cons (pyStrip ((pyStrip l).drop 5))) ih
        · rw [Bool.not_eq_true] at hch
          rw [hch]
          simpa [checkedTexts, hch] using ih
      · rw [if_neg hopt]
        have hch : isCheckedLine (pyStrip l) = false := by
          by_contra hc
          rw [Bool.not_eq_false] at hc
          exact hopt (isOptionLine_of_checked _ hc)
        rw [hch]
        simpa [checkedTexts] using ih

lemma extractOptions_answers_subset (ls : List (List Char)) (a : List Char)
    (ha : a ∈ (extractOptions ls).2) : a ∈ (extractOptions ls).1 := by
  induction ls with
  | nil => simp [extractOptions] at ha
  | cons l rest ih =>
    simp only [extractOptions] at ha ⊢
    by_cases hskip : pyStrip l = [] ∨ isBoilerplate (pyStrip l)
    · rw [if_pos hskip] at ha ⊢; exact ih ha
    · rw [if_neg hskip] at ha ⊢
      by_cases hopt : isOptionLine (pyStrip l) = true
      · rw [if_pos hopt] at ha ⊢
        by_cases hch : isCheckedLine (pyStrip l) = true
        · rw [hch] at ha
          rcases List.mem_cons.1 ha with rfl | ha
          · exact List.mem_cons_self _ _
          · exact List.mem_cons_of_mem _ (ih ha)
        · rw [Bool.not_eq_true] at hch
          rw [hch] at ha
          exact List.mem_cons_of_mem _ (ih ha)
      · rw [if_neg hopt] at ha ⊢; exact ih ha

/-- Anatomy of a successfully parsed section: every field of the produced
record in terms of the block's lines. -/
lemma parseSection_some_anatomy (sec : List Char) (q : Question)
    (h : parseSection sec = some q) :
    q.QUESTION = pyStrip ((splitLines (pyStrip sec)).headD []) ∧
    q.ANSWER_CHOICES = (extractOptions (splitLines (pyStrip sec)).tail).1 ∧
    q.ANSWERS = (extractOptions (splitLines (pyStrip sec)).tail).2 ∧
    q.EXPLANATIONS = [] ∧
    q.ANSWER_CHOICES ≠ [] ∧ q.ANSWERS ≠ [] := by
  unfold parseSection at h
  by_cases h1 : pyStrip sec = []
  · rw [if_pos h1] at h; exact absurd h (by simp)
  rw [if_neg h1] at h
  dsimp only at h
  by_cases h2 : pyLower (pyStrip ((splitLines (pyStrip sec)).headD [])) = "placeholder".toList ∨
      pyStrip ((splitLines (pyStrip sec)).headD []) = []
  · rw [if_pos h2] at h; exact absurd h (by simp)
  rw [if_neg h2] at h
  by_cases h3 : (extractOptions (splitLines (pyStrip sec)).tail).1 ≠ [] ∧
      (extractOptions (splitLines (pyStrip sec)).tail).2 ≠ []
  · rw [if_pos h3] at h
    obtain rfl := Option.some.inj h
    exact ⟨rfl, rfl, rfl, rfl, h3.1, h3.2⟩
  · rw [if_neg h3] at h; exact absurd h (by simp)

lemma extract_mem_anatomy (content : List Char) (q : Question)
    (hq : q ∈ extract_questions_from_readme content) :
    ∃ sec, sec ∈ splitSections (universalNewlines content) ∧
      parseSection sec = some q := by
  unfold extract_questions_from_readme at hq
  obtain ⟨sec, hmem, hs⟩ := List.mem_filterMap.1 hq
  exact ⟨sec, List.mem_of_mem_tail hmem, hs⟩

/-- C1: for every block's option region, the extracted correct answers
are exactly the texts of the lines carrying the checked marker `- [x]`
(a stripped line with any other marker case is not an option line at all,
hence never counted as checked), and for every question emitted by the
parser the correct answers are a subset of its options. -/
theorem correct_options_are_exactly_checked :
    (∀ ls : List (List Char), (extractOptions ls).2 = checkedTexts ls) ∧
    (∀ content : List Char, ∀ q ∈ extract_questions_from_readme content,
      ∀ a ∈ q.ANSWERS, a ∈ q.ANSWER_CHOICES) := by
  refine ⟨extractOptions_snd_eq_checkedTexts, ?_⟩
  intro content q hq a ha
  obtain ⟨sec, -, hs⟩ := extract_mem_anatomy content q hq
  obtain ⟨-, hac, hans, -⟩ := parseSection_some_anatomy sec q hs
  rw [hac]
  rw [hans] at ha
  exact extractOptions_answers_subset _ a ha

/-- Witness for C1 at a concrete document. -/
theorem correct_options_are_exactly_checked_instance :
    (({ QUESTION := "Q".toList,
        ANSWER_CHOICES := ["Yes".toList, "No".toList],
        ANSWERS := ["Yes".toList], EXPLANATIONS := [] } : Question) ∈
          extract_questions_from_readme "x\n### Q\n- [x] Yes\n- [ ] No".toList) ∧
    "Yes".toList ∈ (Question.mk "Q".toList ["Yes".toList, "No".toList]
      ["Yes".toList] []).ANSWER_CHOICES :=
  ⟨by decide,
    correct_options_are_exactly_checked.2 "x\n### Q\n- [x] Yes\n- [ ] No".toList
      _ (by decide) "Yes".toList (by decide)⟩

/-- Document with stem text spanning two lines before the first option
line, used to refute C2 as stated. -/
def exStemTwoLines : List Char :=
  "x\n### Q line one\nsecond stem line\n- [x] A\n- [ ] B".toList

/-- Counterexample to C2 as stated: the block's text preceding the first
option line is two lines, but the parser's stem is only the first line. -/
theorem stem_not_all_preceding_text :
    (extract_questions_from_readme exStemTwoLines).map Question.QUESTION =
      ["Q line one".toList] ∧
    specStem (((splitSections exStemTwoLines).tail).headD []) =
      "Q line one\nsecond stem line".toList ∧
    ("Q line one".toList : List Char) ≠ "Q line one\nsecond stem line".toList := by
  decide

/-- C2 amended: the stem of the produced Question is the stripped first
line of the block, not all text preceding the first option line. -/
theorem stem_is_first_line (sec : List Char) (q : Question)
    (h : parseSection sec = some q) :
    q.QUESTION = pyStrip ((splitLines (pyStrip sec)).headD []) :=
  (parseSection_some_anatomy sec q h).1

/-- Witness for the amended C2 at a concrete block. -/
theorem stem_is_first_line_instance :
    parseSection "Q line one\nsecond stem line\n- [x] A\n- [ ] B".toList =
      some { QUESTION := "Q line one".toList,
             ANSWER_CHOICES := ["A".toList, "B".toList],
             ANSWERS := ["A".toList], EXPLANATIONS := [] } ∧
    (Question.mk "Q line one".toList ["A".toList, "B".toList] ["A".toList]
        []).QUESTION =
      pyStrip ((splitLines
        (pyStrip "Q line one\nsecond stem line\n- [x] A\n- [ ] B".toList)).headD []) :=
  ⟨by decide, stem_is_first_line _ _ (by decide)⟩

/-- Document with one question block that has no option lines, used to
refute C3 as stated. -/
def exNoOptions : List Char := "x\n### Just a stem, no options".toList

/-- Counterexample to C3 as stated: the document holds one non-empty
non-placeholder block with no option lines, yet the parser's output is
empty — the block is dropped, no Question with empty options appears. -/
theorem no_option_block_dropped_cex :
    extract_questions_from_readme exNoOptions = [] ∧
    (splitSections exNoOptions).tail = ["Just a stem, no options".toList] ∧
    (extractOptions ((splitLines
      (pyStrip "Just a stem, no options".toList)).tail)).1 = [] := by
  decide

/-- C3 amended: a question block containing no option lines yields no
Question record at all (the `answer_choices and correct_answers` guard
drops it); consequently every emitted Question has non-empty options. -/
theorem no_option_block_dropped :
    (∀ sec : List Char,
      (extractOptions ((splitLines (pyStrip sec)).tail)).1 = [] →
        parseSection sec = none) ∧
    (∀ content : List Char, ∀ q ∈ extract_questions_from_readme content,
      q.ANSWER_CHOICES ≠ []) := by
  constructor
  · intro sec hopt
    unfold parseSection
    by_cases h1 : pyStrip sec = []
    · rw [if_pos h1]
    · rw [if_neg h1]
      dsimp only
      by_cases h2 : pyLower (pyStrip ((splitLines (pyStrip sec)).headD [])) =
          "placeholder".toList ∨ pyStrip ((splitLines (pyStrip sec)).headD []) = []
      · rw [if_pos h2]
      · rw [if_neg h2, if_neg]
        intro hcon
        exact hcon.1 hopt
  · intro content q hq
    obtain ⟨sec, -, hs⟩ := extract_mem_anatomy content q hq
    exact (parseSection_some_anatomy sec q hs).2.2.2.2.1

/-- Witness for the amended C3 at a concrete block. -/
theorem no_option_block_dropped_instance :
    (extractOptions ((splitLines
      (pyStrip "Just a stem, no options".toList)).tail)).1 = [] ∧
    parseSection "Just a stem, no options".toList = none :=
  ⟨by decide, no_option_block_dropped.1 _ (by decide)⟩

/-- Document with one question block whose options carry no checked
marker, used to refute C4 as stated. -/
def exZeroCorrect : List Char := "x\n### Q\n- [ ] A\n- [ ] B".toList

/-- Counterexample to C4 as stated: the block has two option lines and
none marked correct, yet the parser's output is empty — the block is
dropped, not retained. -/
theorem zero_correct_block_dropped_cex :
    extract_questions_from_readme exZeroCorrect = [] ∧
    extractOptions ((splitLines
      (pyStrip "Q\n- [ ] A\n- [ ] B".toList)).tail) =
      (["A".toList, "B".toList], []) := by
  decide

/-- C4 amended: a question block with option lines but none marked
correct yields no Question record (the `answer_choices and
correct_answers` guard drops it); consequently every emitted Question has
non-empty correct answers. -/
theorem zero_correct_block_dropped :
    (∀ sec : List Char,
      (extractOptions ((splitLines (pyStrip sec)).tail)).2 = [] →
        parseSection sec = none) ∧
    (∀ content : List Char, ∀ q ∈ extract_questions_from_readme content,
      q.ANSWERS ≠ []) := by
  constructor
  · intro sec hopt
    unfold parseSection
    by_cases h1 : pyStrip sec = []
    · rw [if_pos h1]
    · rw [if_neg h1]
      dsimp only
      by_cases h2 : pyLower (pyStrip ((splitLines (pyStrip sec)).headD [])) =
          "placeholder".toList ∨ pyStrip ((splitLines (pyStrip sec)).headD []) = []
      · rw [if_pos h2]
      · rw [if_neg h2, if_neg]
        intro hcon
        exact hcon.2 hopt
  · intro content q hq
    obtain ⟨sec, -, hs⟩ := extract_mem_anatomy content q hq
    exact (parseSection_some_anatomy sec q hs).2.2.2.2.2

/-- Witness for the amended C4 at a concrete block. -/
theorem zero_correct_block_dropped_instance :
    (extractOptions ((splitLines
      (pyStrip "Q\n- [ ] A\n- [ ] B".toList)).tail)).2 = [] ∧
    parseSection "Q\n- [ ] A\n- [ ] B".toList = none :=
  ⟨by decide, zero_correct_block_dropped.1 _ (by decide)⟩

/-- C5: the `back to top` boilerplate test skips such a line wherever it
occurs, so extracting options from a block's lines gives the same result
as extracting from the lines with all boilerplate removed, and a
boilerplate line never contributes an option. -/
theorem boilerplate_skipped :
    (∀ ls : List (List Char),
      extractOptions (ls.filter (fun l => !(isBoilerplate (pyStrip l)))) =
        extractOptions ls) ∧
    (∀ l : List Char, ∀ rest : List (List Char),
      isBoilerplate (pyStrip l) = true →
        extractOptions (l :: rest) = extractOptions rest) := by
  have hskip : ∀ l : List Char, ∀ rest : List (List Char),
      isBoilerplate (pyStrip l) = true →
        extractOptions (l :: rest) = extractOptions rest := by
    intro l rest hb
    simp only [extractOptions]
    rw [if_pos (Or.inr hb)]
  refine ⟨?_, hskip⟩
  intro ls
  induction ls with
  | nil => rfl
  | cons l rest ih =>
    by_cases hb : isBoilerplate (pyStrip l) = true
    · rw [List.filter_cons_of_neg (by simp [hb]), ih, hskip l rest hb]
    · rw [Bool.not_eq_true] at hb
      rw [List.filter_cons_of_pos (by simp [hb])]
      simp only [extractOptions]
      rw [ih]

/-- Witness for C5 at a concrete boilerplate line. -/
theorem boilerplate_skipped_instance :
    isBoilerplate (pyStrip "[⬆ Back to Top](#table-of-contents)".toList) = true ∧
    extractOptions ["[⬆ Back to Top](#table-of-contents)".toList, "- [x] A".toList] =
      extractOptions ["- [x] A".toList] :=
  ⟨by decide, boilerplate_skipped.2 _ _ (by decide)⟩

/-- C6: parsing is deterministic — the embedded parser is a pure function
of the document text, so two runs on the same text give structurally
identical question sequences. -/
theorem parsing_deterministic (content : List Char) :
    extract_questions_from_readme content = extract_questions_from_readme content :=
  rfl

/-!
Model of `AWSQuizAgent` (`aws_quiz_agent.py`).  A stored question record
is a Python dict with keys `question`, `answer_choices`,
`correct_answers`; `get_question_by_topic` may later add an `index` key,
modelled by an `Option Nat` field that is `none` while the key is
absent.  The OpenAI call is external: its outcome is passed in as an
`ApiResult` (normal return value or raised exception).  A raised,
uncaught Python exception is modelled by `Except.error`. -/

structure StoredQ where
  question : List Char
  answer_choices : List (List Char)
  correct_answers : List (List Char)
  index : Option Nat := none
deriving DecidableEq

/-- Outcome of the external `client.chat.completions.create` call:
either the response content or a raised exception with its message. -/
inductive ApiResult where
  | ok (content : List Char)
  | exn (msg : List Char)
deriving DecidableEq

/-- Return value of `get_explanation_for_question`: a success dict with
the four keys the code builds, or a dict containing an `error` key. -/
inductive ExplanationResult where
  | success (question : List Char) (answer_choices : List (List Char))
      (correct_answers : List (List Char)) (explanation : List Char)
  | error (msg : List Char)
deriving DecidableEq

/-- The guard `question_index < len(self.questions_data)` on the given
index (evaluated only when the index is not None). -/
def question_index_in_range (qs : List StoredQ) (i : Int) : Bool :=
  decide (i < (qs.length : Int))

/-- Python list indexing `qs[i]` with negative-index semantics: `none`
models a raised IndexError. -/
def pyIndex (qs : List StoredQ) (i : Int) : Option StoredQ :=
  if 0 ≤ i then qs[i.toNat]?
  else if 0 ≤ (qs.length : Int) + i then qs[((qs.length : Int) + i).toNat]?
  else none

/-- Python substring test `needle in hay` on strings. -/
def pyInStr : List Char → List Char → Bool
  | needle, [] => needle.isEmpty
  | needle, c :: rest => needle.isPrefixOf (c :: rest) || pyInStr needle rest

/-- Python membership test `question_text.lower() in q['question'].lower()`
used to locate a question by text. -/
def questionTextMatches (t q : List Char) : Bool :=
  pyInStr (pyLower t) (pyLower q)

/-- The search loop of `get_explanation_for_question` over
`self.questions_data` when a question text is given. -/
def find_by_text (qs : List StoredQ) (t : List Char) : Option StoredQ :=
  qs.find? (fun q => questionTextMatches t q.question)

/-- Tail of `get_explanation_for_question` once a question record is in
hand: the `try` around the OpenAI call returns the success dict, and the
`except` clause turns any raised exception into an error dict. -/
def explainPhase (qd : StoredQ) (api : ApiResult) : ExplanationResult :=
  match api with
  | .ok content =>
      .success qd.question qd.answer_choices qd.correct_answers content
  | .exn e => .error ("Failed to get explanation: ".toList ++ e)

/-- The `elif question_text: ... else: ...` part of
`get_explanation_for_question` (reached when no index was given or the
index guard failed); `some []` is falsy like Python's empty string. -/
def textPhase (qs : List StoredQ) (question_text : Option (List Char))
    (api : ApiResult) : Except (List Char) ExplanationResult :=
  match question_text with
  | some t =>
    if t ≠ [] then
      match find_by_text qs t with
      | some qd => .ok (explainPhase qd api)
      | none => .ok (.error "Question not found".toList)
    else .ok (.error "Please provide either question_index or question_text".toList)
  | none => .ok (.error "Please provide either question_index or question_text".toList)

/-- Model of `AWSQuizAgent.get_explanation_for_question` (aws_quiz_agent.py,
lines 108-167): select a question by index or text, then call the
explanation API; an uncaught IndexError from a deep negative index is a
raised exception (`Except.error`). -/
def get_explanation_for_question (qs : List StoredQ) (question_index : Option Int)
    (question_text : Option (List Char)) (api : ApiResult) :
    Except (List Char) ExplanationResult :=
  match question_index with
  | some i =>
    if question_index_in_range qs i then
      match pyIndex qs i with
      | some qd => .ok (explainPhase qd api)
      | none => .error "IndexError: list index out of range".toList
    else textPhase qs question_text api
  | none => textPhase qs question_text api

/-- The loop body of `get_question_by_topic`: for each stored record
whose question mentions the topic, set the record's `index` entry to its
position (`question_data['index'] = i` mutates the stored dict). -/
def markIndices (i : Nat) (topic : List Char) : List StoredQ → List StoredQ
  | [] => []
  | q :: rest =>
    (if questionTextMatches topic q.question then { q with index := some i } else q) ::
      markIndices (i + 1) topic rest

/-- Model of `AWSQuizAgent.get_question_by_topic`: returns the stored
list after the loop's in-place mutations together with the list of
matching (mutated) records. -/
def get_question_by_topic (qs : List StoredQ) (topic : List Char) :
    List StoredQ × List StoredQ :=
  (markIndices 0 topic qs,
    (markIndices 0 topic qs).filter (fun q => questionTextMatches topic q.question))

/-- The no-topic branch of `create_study_session`: fresh records
`{"index": i, **q}` built from the stored ones (the stored list itself is
untouched). -/
def withIndices (i : Nat) : List StoredQ → List StoredQ
  | [] => []
  | q :: rest => { q with index := some i } :: withIndices (i + 1) rest

/-- Model of `AWSQuizAgent.create_study_session`: pick available
questions (by topic, mutating the store, or enumerated copies), take the
first `num_questions`, and fetch an explanation for each; returns the
stored list as left after the call together with the session results. -/
def create_study_session (qs : List StoredQ) (num_questions : Nat)
    (topic : Option (List Char)) (api : ApiResult) :
    List StoredQ × List (Except (List Char) ExplanationResult) :=
  let p : List StoredQ × List StoredQ :=
    match topic with
    | some t => if t ≠ [] then get_question_by_topic qs t else (qs, withIndices 0 qs)
    | none => (qs, withIndices 0 qs)
  let selected := p.2.take num_questions
  (p.1, selected.map (fun q =>
    get_explanation_for_question p.1 (some ((q.index.getD 0 : Nat) : Int)) none api))

/-- The fields of a stored record other than the mutable `index` entry. -/
def coreFields (q : StoredQ) : List Char × List (List Char) × List (List Char) :=
  (q.question, q.answer_choices, q.correct_answers)

/-- C8: whenever the external explanation call raises (any exception
message), the `except` clause turns it into an error dict — the
function's normal return value, never a propagated exception; in
particular an in-range non-negative index always yields that error dict. -/
theorem api_failure_caught :
    (∀ (qd : StoredQ) (e : List Char),
      explainPhase qd (.exn e) =
        .error ("Failed to get explanation: ".toList ++ e)) ∧
    (∀ (qs : List StoredQ) (i : Int) (question_text : Option (List Char)) (e : List Char),
      question_index_in_range qs i = true → 0 ≤ i →
        get_explanation_for_question qs (some i) question_text (.exn e) =
          .ok (.error ("Failed to get explanation: ".toList ++ e))) := by
  refine ⟨fun qd e => rfl, ?_⟩
  intro qs i question_text e hin hpos
  have hlt : i.toNat < qs.length := by
    unfold question_index_in_range at hin
    rw [decide_eq_true_iff] at hin
    omega
  simp only [get_explanation_for_question]
  rw [if_pos hin]
  unfold pyIndex
  rw [if_pos hpos, List.getElem?_eq_getElem hlt]
  rfl

/-- Witness for C8 at a concrete agent state and exception. -/
theorem api_failure_caught_instance :
    question_index_in_range
        [StoredQ.mk "Q".toList ["A".toList] ["A".toList] none] 0 = true ∧
    get_explanation_for_question
        [StoredQ.mk "Q".toList ["A".toList] ["A".toList] none]
        (some 0) none (.exn "boom".toList) =
      .ok (.error ("Failed to get explanation: ".toList ++ "boom".toList)) :=
  ⟨by decide,
    api_failure_caught.2 [StoredQ.mk "Q".toList ["A".toList] ["A".toList] none]
      0 none "boom".toList (by decide) (by decide)⟩

/-- A one-question store used to refute C9 as stated. -/
def exStored : List StoredQ :=
  [{ question := "What is S3?".toList,
     answer_choices := ["Object storage".toList],
     correct_answers := ["Object storage".toList], index := none }]

/-- Counterexample to C9 as stated: `get_question_by_topic` (and
`create_study_session` with a topic, which calls it) adds an `index`
entry to the stored matching records, so the stored list after the call
differs from the stored list before it. -/
theorem question_records_mutated_cex :
    (get_question_by_topic exStored "S3".toList).1 ≠ exStored ∧
    (create_study_session exStored 3 (some "S3".toList) (.ok "text".toList)).1 ≠
      exStored := by
  decide

/-- C9 amended: the mutation is confined to the `index` entry —
`get_question_by_topic` and `create_study_session` never change a stored
record's question, options or correct answers, and never reorder,
add or drop records. -/
theorem only_index_field_mutated :
    (∀ (qs : List StoredQ) (topic : List Char),
      ((get_question_by_topic qs topic).1).map coreFields = qs.map coreFields) ∧
    (∀ (qs : List StoredQ) (n : Nat) (topic : Option (List Char)) (api : ApiResult),
      ((create_study_session qs n topic api).1).map coreFields =
        qs.map coreFields) := by
  have hmark : ∀ (qs : List StoredQ) (i : Nat) (topic : List Char),
      (markIndices i topic qs).map coreFields = qs.map coreFields := by
    intro qs
    induction qs with
    | nil => intro i topic; rfl
    | cons q rest ih =>
      intro i topic
      simp only [markIndices, List.map_cons, ih]
      by_cases h : questionTextMatches topic q.question = true
      · rw [if_pos h]; rfl
      · rw [if_neg h]
  have hget : ∀ (qs : List StoredQ) (topic : List Char),
      ((get_question_by_topic qs topic).1).map coreFields = qs.map coreFields := by
    intro qs topic
    simp only [get_question_by_topic]
    exact hmark qs 0 topic
  refine ⟨hget, ?_⟩
  intro qs n topic api
  match topic with
  | none => rfl
  | some t =>
    by_cases ht : t ≠ []
    · simp only [create_study_session]
      rw [if_pos ht]
      exact hget qs t
    · simp only [create_study_session]
      rw [if_neg ht]

/-- C10: an index at least the number of loaded questions (with no
question text) falls through to the final else and yields the
`Please provide either question_index or question_text` error dict, and
the `question_index < len(...)` guard accepts every negative index. -/
theorem index_guard_behavior :
    (∀ (qs : List StoredQ) (i : Int) (api : ApiResult),
      (qs.length : Int) ≤ i →
        get_explanation_for_question qs (some i) none api =
          .ok (.error "Please provide either question_index or question_text".toList)) ∧
    (∀ (qs : List StoredQ) (i : Int), i < 0 →
      question_index_in_range qs i = true) := by
  constructor
  · intro qs i api hge
    simp only [get_explanation_for_question]
    rw [if_neg]
    · rfl
    · unfold question_index_in_range
      simp only [decide_eq_true_iff]
      omega
  · intro qs i hneg
    unfold question_index_in_range
    rw [decide_eq_true_iff]
    omega

/-!
Model of `save_to_csv` (extract_questions.py) and
`AWSQuizAgent._load_questions` (aws_quiz_agent.py).  File contents are
char lists; the file system is abstracted away (saving returns the file
text, loading takes it).  The external library behaviour the two
functions rely on is modelled for the data shapes they produce and read:
the Python csv module's default dialect (delimiter `,`, quote char `"`,
QUOTE_MINIMAL, line terminator CR LF, quoted fields may span lines),
`json.dumps`/`json.loads` with `ensure_ascii=False` and default
separators on lists of strings, and — because `_load_questions` opens
the file in text mode without `newline=''` — Python's universal-newline
translation applied to the file text before the csv reader sees it. -/

/-- A loaded question record of `_load_questions` (keys `question`,
`answer_choices`, `correct_answers`). -/
structure QData where
  question : List Char
  answer_choices : List (List Char)
  correct_answers : List (List Char)
deriving DecidableEq

/-- Lowercase hex digit, as produced by Python's `\uXXXX` escapes
(agrees with `%04x` formatting on the digit range 0-15). -/
def hexDigitChar (n : Nat) : Char :=
  if n = 0 then '0' else if n = 1 then '1' else if n = 2 then '2'
  else if n = 3 then '3' else if n = 4 then '4' else if n = 5 then '5'
  else if n = 6 then '6' else if n = 7 then '7' else if n = 8 then '8'
  else if n = 9 then '9' else if n = 10 then 'a' else if n = 11 then 'b'
  else if n = 12 then 'c' else if n = 13 then 'd' else if n = 14 then 'e'
  else 'f'

/-- Escaping of one character by `json.dumps` with `ensure_ascii=False`. -/
def jsonEscapeChar (c : Char) : List Char :=
  if c = '"' then ['\\', '"']
  else if c = '\\' then ['\\', '\\']
  else if c = '\n' then ['\\', 'n']
  else if c = '\r' then ['\\', 'r']
  else if c = '\t' then ['\\', 't']
  else if c = '\x08' then ['\\', 'b']
  else if c = '\x0c' then ['\\', 'f']
  else if c.toNat < 32 then
    ['\\', 'u', '0', '0', hexDigitChar (c.toNat / 16), hexDigitChar (c.toNat % 16)]
  else [c]

/-- Escaped body of a JSON string literal. -/
def escText : List Char → List Char
  | [] => []
  | c :: rest => jsonEscapeChar c ++ escText rest

/-- A JSON string literal. -/
def jsonString (s : List Char) : List Char := '"' :: (escText s ++ ['"'])

/-- The comma-space separated items of a JSON array of strings
(json.dumps default item separator). -/
def jsonItems : List (List Char) → List Char
  | [] => []
  | [v] => jsonString v
  | v :: rest => jsonString v ++ (',' :: ' ' :: jsonItems rest)

/-- Model of `json.dumps(list_of_strings, ensure_ascii=False)`. -/
def jsonEncodeList (l : List (List Char)) : List Char :=
  '[' :: (jsonItems l ++ [']'])

/-- Whitespace accepted between JSON tokens. -/
def isJsonWs (c : Char) : Bool := c = ' ' || c = '\t' || c = '\n' || c = '\r'

def skipWs (s : List Char) : List Char := s.dropWhile isJsonWs

/-- Value of a hex digit in a `\uXXXX` escape. -/
def hexVal (c : Char) : Option Nat :=
  if '0' ≤ c ∧ c ≤ '9' then some (c.toNat - '0'.toNat)
  else if 'a' ≤ c ∧ c ≤ 'f' then some (c.toNat - 'a'.toNat + 10)
  else if 'A' ≤ c ∧ c ≤ 'F' then some (c.toNat - 'A'.toNat + 10)
  else none

/-- Value of a short backslash escape in a JSON string. -/
def escCharVal (e : Char) : Option Char :=
  if e = '"' then some '"'
  else if e = '\\' then some '\\'
  else if e = '/' then some '/'
  else if e = 'b' then some '\x08'
  else if e = 'f' then some '\x0c'
  else if e = 'n' then some '\n'
  else if e = 'r' then some '\r'
  else if e = 't' then some '\t'
  else none

/-- Parse the body of a JSON string literal (opening quote already
consumed); returns the decoded text and the remaining input, `none` on a
malformed literal (modelling a raised `json.JSONDecodeError`). -/
def jsonParseString : List Char → Option (List Char × List Char)
  | [] => none
  | '"' :: rest => some ([], rest)
  | '\\' :: 'u' :: h1 :: h2 :: h3 :: h4 :: rest =>
    match hexVal h1, hexVal h2, hexVal h3, hexVal h4 with
    | some a, some b, some c, some d =>
      match jsonParseString rest with
      | some (v, r) => some (Char.ofNat (((a * 16 + b) * 16 + c) * 16 + d) :: v, r)
      | none => none
    | _, _, _, _ => none
  | '\\' :: e :: rest =>
    match escCharVal e with
    | some c =>
      match jsonParseString rest with
      | some (v, r) => some (c :: v, r)
      | none => none
    | none => none
  | c :: rest =>
    match jsonParseString rest with
    | some (v, r) => some (c :: v, r)
    | none => none

/-- Parse the comma-separated string items of a JSON array up to the
closing bracket; the fuel (one unit per item) is instantiated with the
input length, which bounds the item count. -/
def jsonItemsParse : Nat → List Char → Option (List (List Char) × List Char)
  | 0, _ => none
  | fuel + 1, s =>
    match s with
    | '"' :: rest =>
      match jsonParseString rest with
      | some (v, r) =>
        match skipWs r with
        | ',' :: r2 =>
          match jsonItemsParse fuel (skipWs r2) with
          | some (vs, rr) => some (v :: vs, rr)
          | none => none
        | ']' :: r2 => some ([v], r2)
        | _ => none
      | none => none
    | _ => none

/-- Model of `json.loads` restricted to the values this code stores in
the CSV: JSON arrays of strings.  `none` models a raised decode error. -/
def json_loads_list (s : List Char) : Option (List (List Char)) :=
  match skipWs s with
  | '[' :: r =>
    match skipWs r with
    | ']' :: r2 => if skipWs r2 = [] then some [] else none
    | r2 =>
      match jsonItemsParse (r2.length + 1) r2 with
      | some (vs, rr) => if skipWs rr = [] then some vs else none
      | none => none
  | _ => none

/-- QUOTE_MINIMAL: a field is quoted iff it contains the delimiter, the
quote char, or a line-terminator character. -/
def csvNeedsQuoting (f : List Char) : Bool :=
  f.any (fun c => c = ',' || c = '"' || c = '\r' || c = '\n')

/-- Double every quote char inside a quoted field. -/
def csvEscapeQuotes : List Char → List Char
  | [] => []
  | c :: rest =>
    if c = '"' then '"' :: ('"' :: csvEscapeQuotes rest)
    else c :: csvEscapeQuotes rest

/-- One field as written by the csv writer. -/
def csvField (f : List Char) : List Char :=
  if csvNeedsQuoting f then '"' :: (csvEscapeQuotes f ++ ['"']) else f

/-- The comma-joined fields of one row (line terminator not included). -/
def rowBody : List (List Char) → List Char
  | [] => []
  | [f] => csvField f
  | f :: fs => csvField f ++ (',' :: rowBody fs)

/-- The header written and expected back: the `fieldnames` of
`save_to_csv` / the keys `_load_questions` reads. -/
def csvHeaderFields : List (List Char) :=
  ["QUESTION".toList, "ANSWER_CHOICES".toList, "ANSWERS".toList, "EXPLANATIONS".toList]

/-- The four cells written per question by `save_to_csv`: the stem and
explanations verbatim, the two lists as JSON. -/
def questionFields (q : Question) : List (List Char) :=
  [q.QUESTION, jsonEncodeList q.ANSWER_CHOICES, jsonEncodeList q.ANSWERS, q.EXPLANATIONS]

/-- The writer loop of `save_to_csv` over the question rows. -/
def csvRowsText : List Question → List Char
  | [] => []
  | q :: rest => (rowBody (questionFields q) ++ ['\r', '\n']) ++ csvRowsText rest

/-- Model of `save_to_csv`: header row, then one CR-LF-terminated row
per question. -/
def save_to_csv (qs : List Question) : List Char :=
  (rowBody csvHeaderFields ++ ['\r', '\n']) ++ csvRowsText qs

/-- Csv reader: an unquoted field, ending at a comma, a newline or the
end of input. -/
def parseUnquoted : List Char → List Char × List Char
  | [] => ([], [])
  | c :: rest =>
    if c = ',' ∨ c = '\n' then ([], c :: rest)
    else
      let p := parseUnquoted rest
      (c :: p.1, p.2)

/-- Csv reader: the rest of a quoted field (opening quote consumed);
doubled quotes decode to one quote, a closing quote hands over to
unquoted mode, newlines inside the quotes are field content. -/
def parseQuoted : List Char → List Char × List Char
  | [] => ([], [])
  | c :: rest =>
    if c = '"' then
      match rest with
      | [] => ([], [])
      | c2 :: rest2 =>
        if c2 = '"' then
          let p := parseQuoted rest2
          ('"' :: p.1, p.2)
        else parseUnquoted (c2 :: rest2)
    else
      let p := parseQuoted rest
      (c :: p.1, p.2)

/-- Csv reader: one field. -/
def parseField : List Char → List Char × List Char
  | [] => parseUnquoted []
  | c :: rest => if c = '"' then parseQuoted rest else parseUnquoted (c :: rest)

/-- Csv reader: one record (comma-separated fields up to a newline); the
fuel (one unit per field) is instantiated with the input length. -/
def parseRecordAux : Nat → List Char → List (List Char) × List Char
  | 0, s => ([], s)
  | fuel + 1, s =>
    let p := parseField s
    match p.2 with
    | [] => ([p.1], [])
    | c :: r2 =>
      if c = ',' then
        let q := parseRecordAux fuel r2
        (p.1 :: q.1, q.2)
      else ([p.1], r2)

/-- Csv reader: all records of the translated file text. -/
def parseRecordsAux : Nat → List Char → List (List (List Char))
  | 0, _ => []
  | _ + 1, [] => []
  | fuel + 1, c :: rest =>
    let p := parseRecordAux ((c :: rest).length + 1) (c :: rest)
    p.1 :: parseRecordsAux fuel p.2

def parseRecords (s : List Char) : List (List (List Char)) :=
  parseRecordsAux (s.length + 1) s

/-- The row loop of `_load_questions`: build a record per data row,
decoding the two JSON cells; a decode failure raises, aborting the loop
(earlier rows stay loaded, modelled by returning what was built). -/
def loadRows : List (List (List Char)) → List QData
  | [] => []
  | row :: rest =>
    match row with
    | [q, ac, ans, _e] =>
      match json_loads_list ac, json_loads_list ans with
      | some l1, some l2 => ⟨q, l1, l2⟩ :: loadRows rest
      | _, _ => []
    | _ => []

/-- Model of `AWSQuizAgent._load_questions` applied to the CSV file
text: universal-newline translation, csv reading with the first record
as header, then the row loop. -/
def load_questions (fileText : List Char) : List QData :=
  match parseRecords (universalNewlines fileText) with
  | [] => []
  | header :: dataRows =>
    if header = csvHeaderFields then loadRows dataRows else []

/-- The loaded image of a parsed question (what a lossless round trip
must reproduce). -/
def questionData (q : Question) : QData := ⟨q.QUESTION, q.ANSWER_CHOICES, q.ANSWERS⟩

/-- Witness for C10 at a concrete store, an out-of-range index and a
negative index. -/
theorem index_guard_behavior_instance :
    get_explanation_for_question
        [StoredQ.mk "Q".toList ["A".toList] ["A".toList] none]
        (some 5) none (.ok "text".toList) =
      .ok (.error "Please provide either question_index or question_text".toList) ∧
    question_index_in_range
        [StoredQ.mk "Q".toList ["A".toList] ["A".toList] none] (-3) = true :=
  ⟨index_guard_behavior.1 [StoredQ.mk "Q".toList ["A".toList] ["A".toList] none]
      5 (.ok "text".toList) (by decide),
    index_guard_behavior.2 [StoredQ.mk "Q".toList ["A".toList] ["A".toList] none]
      (-3) (by decide)⟩

lemma hexVal_hexDigitChar : ∀ k, k < 16 → hexVal (hexDigitChar k) = some k := by
  decide

lemma skipWs_cons_of_not_ws (c : Char) (t : List Char) (h : isJsonWs c = false) :
    skipWs (c :: t) = c :: t := by
  simp [skipWs, List.dropWhile_cons, h]

lemma jsonParseString_escText (v rest : List Char) :
    jsonParseString (escText v ++ ('"' :: rest)) = some (v, rest) := by
  induction v with
  | nil => simp [escText, jsonParseString]
  | cons c v' ih =>
    show jsonParseString ((jsonEscapeChar c ++ escText v') ++ ('"' :: rest)) = _
    rw [List.append_assoc]
    unfold jsonEscapeChar
    by_cases h1 : c = '"'
    · subst h1; simp [jsonParseString, escCharVal, ih]
    rw [if_neg h1]
    by_cases h2 : c = '\\'
    · subst h2; simp [jsonParseString, escCharVal, ih]
    rw [if_neg h2]
    by_cases h3 : c = '\n'
    · subst h3; simp [jsonParseString, escCharVal, ih]
    rw [if_neg h3]
    by_cases h4 : c = '\r'
    · subst h4; simp [jsonParseString, escCharVal, ih]
    rw [if_neg h4]
    by_cases h5 : c = '\t'
    · subst h5; simp [jsonParseString, escCharVal, ih]
    rw [if_neg h5]
    by_cases h6 : c = '\x08'
    · subst h6; simp [jsonParseString, escCharVal, ih]
    rw [if_neg h6]
    by_cases h7 : c = '\x0c'
    · subst h7; simp [jsonParseString, escCharVal, ih]
    rw [if_neg h7]
    by_cases h8 : c.toNat < 32
    · rw [if_pos h8]
      have hd1 : hexVal (hexDigitChar (c.toNat / 16)) = some (c.toNat / 16) :=
        hexVal_hexDigitChar _ (by omega)
      have hd2 : hexVal (hexDigitChar (c.toNat % 16)) = some (c.toNat % 16) :=
        hexVal_hexDigitChar _ (Nat.mod_lt _ (by omega))
      have hzero : hexVal '0' = some 0 := by decide
      have happ : ([] : List Char).append (escText v' ++ ('"' :: rest)) =
          escText v' ++ ('"' :: rest) := rfl
      simp only [List.cons_append, List.nil_append, jsonParseString, hd1, hd2, hzero,
        happ, ih]
      have hch : Char.ofNat (((0 * 16 + 0) * 16 + c.toNat / 16) * 16 + c.toNat % 16) = c := by
        have harith : ((0 * 16 + 0) * 16 + c.toNat / 16) * 16 + c.toNat % 16 = c.toNat := by
          omega
        rw [harith, Char.ofNat_toNat]
      rw [hch]
    · rw [if_neg h8]
      simp only [List.cons_append, List.nil_append]
      simp [jsonParseString, h1, h2, ih]

lemma jsonItems_cons_head (v : List Char) (l : List (List Char)) (y : List Char) :
    ∃ t, jsonItems (v :: l) ++ y = '"' :: t := by
  cases l with
  | nil => exact ⟨(escText v ++ ['"']) ++ y, by simp [jsonItems, jsonString]⟩
  | cons v2 l'' =>
    exact ⟨((escText v ++ ['"']) ++ (',' :: ' ' :: jsonItems (v2 :: l''))) ++ y,
      by simp [jsonItems, jsonString]⟩

lemma jsonItemsParse_encode (l : List (List Char)) :
    ∀ (rest : List Char) (fuel : Nat), l ≠ [] → l.length ≤ fuel →
      jsonItemsParse fuel (jsonItems l ++ (']' :: rest)) = some (l, rest) := by
  induction l with
  | nil => intro rest fuel h _; exact absurd rfl h
  | cons v l' ih =>
    intro rest fuel _ hfuel
    obtain ⟨fuel', rfl⟩ : ∃ k, fuel = k + 1 := ⟨fuel - 1, by simp at hfuel; omega⟩
    cases l' with
    | nil =>
      show jsonItemsParse (fuel' + 1) (jsonItems [v] ++ (']' :: rest)) = some ([v], rest)
      rw [show jsonItems [v] ++ (']' :: rest) =
          '"' :: (escText v ++ ('"' :: (']' :: rest))) by simp [jsonItems, jsonString]]
      simp only [jsonItemsParse, jsonParseString_escText,
        skipWs_cons_of_not_ws ']' rest (by decide)]
    | cons v2 l'' =>
      show jsonItemsParse (fuel' + 1) (jsonItems (v :: v2 :: l'') ++ (']' :: rest)) = _
      rw [show jsonItems (v :: v2 :: l'') ++ (']' :: rest) =
          '"' :: (escText v ++ ('"' ::
            (',' :: (' ' :: (jsonItems (v2 :: l'') ++ (']' :: rest)))))) by
        simp [jsonItems, jsonString]]
      have hsw : skipWs (' ' :: (jsonItems (v2 :: l'') ++ (']' :: rest))) =
          jsonItems (v2 :: l'') ++ (']' :: rest) := by
        obtain ⟨t, ht⟩ := jsonItems_cons_head v2 l'' (']' :: rest)
        rw [show skipWs (' ' :: (jsonItems (v2 :: l'') ++ (']' :: rest))) =
            skipWs (jsonItems (v2 :: l'') ++ (']' :: rest)) by
          simp [skipWs, List.dropWhile_cons, isJsonWs]]
        rw [ht, skipWs_cons_of_not_ws '"' t (by decide)]
      simp only [jsonItemsParse, jsonParseString_escText,
        skipWs_cons_of_not_ws ',' _ (by decide), hsw,
        ih rest fuel' (by simp) (by simp at hfuel ⊢; omega)]

lemma jsonItems_length (l : List (List Char)) : l.length ≤ (jsonItems l).length + 1 := by
  induction l with
  | nil => simp [jsonItems]
  | cons v l' ih =>
    cases l' with
    | nil => simp [jsonItems]
    | cons v2 l'' =>
      simp only [jsonItems, List.length_cons, List.length_append] at ih ⊢
      simp only [jsonString, List.length_cons, List.length_append, List.length_singleton]
      omega

lemma json_loads_roundtrip (l : List (List Char)) :
    json_loads_list (jsonEncodeList l) = some l := by
  cases l with
  | nil => decide
  | cons v l' =>
    obtain ⟨t, ht⟩ := jsonItems_cons_head v l' (']' :: [])
    have hlen : (v :: l').length ≤ ('"' :: t).length + 1 := by
      have h1 := jsonItems_length (v :: l')
      have h2 : ('"' :: t).length = (jsonItems (v :: l')).length + 1 := by
        have h3 := congrArg List.length ht
        simpa using h3.symm
      omega
    have henc : jsonEncodeList (v :: l') = '[' :: ('"' :: t) := by
      unfold jsonEncodeList
      rw [show jsonItems (v :: l') ++ [']'] = '"' :: t from ht]
    rw [henc]
    simp only [json_loads_list, skipWs_cons_of_not_ws '[' _ (by decide),
      skipWs_cons_of_not_ws '"' t (by decide)]
    split
    · next heq => simp at heq
    · next r2 heq =>
      rw [show ('"' :: t : List Char) = jsonItems (v :: l') ++ (']' :: []) from ht.symm]
      rw [jsonItemsParse_encode (v :: l') [] _ (by simp) (by rw [ht]; exact hlen)]
      simp [skipWs]

lemma parseUnquoted_clean (f : List Char) :
    ∀ (sep : Char) (rest : List Char), (sep = ',' ∨ sep = '\n') →
      (∀ c ∈ f, ¬(c = ',' ∨ c = '\n')) →
      parseUnquoted (f ++ (sep :: rest)) = (f, sep :: rest) := by
  induction f with
  | nil =>
    intro sep rest hsep _
    simp only [List.nil_append, parseUnquoted]
    rw [if_pos hsep]
  | cons c f' ih =>
    intro sep rest hsep hmem
    simp only [List.cons_append, parseUnquoted, List.append_eq]
    rw [if_neg (hmem c (List.mem_cons_self c f'))]
    rw [ih sep rest hsep (fun d hd => hmem d (List.mem_cons_of_mem c hd))]

lemma parseQuoted_escape (f : List Char) :
    ∀ (sep : Char) (rest : List Char), (sep = ',' ∨ sep = '\n') →
      parseQuoted (csvEscapeQuotes f ++ ('"' :: (sep :: rest))) = (f, sep :: rest) := by
  induction f with
  | nil =>
    intro sep rest hsep
    have hsep' : ¬(sep = '"') := by rcases hsep with rfl | rfl <;> decide
    simp only [csvEscapeQuotes, List.nil_append, parseQuoted, if_true]
    rw [if_neg hsep']
    simp only [parseUnquoted]
    rw [if_pos hsep]
  | cons c f' ih =>
    intro sep rest hsep
    by_cases hc : c = '"'
    · subst hc
      simp only [csvEscapeQuotes, List.cons_append, List.append_eq, if_true]
      simp only [parseQuoted, if_true]
      rw [ih sep rest hsep]
    · simp only [csvEscapeQuotes]
      rw [if_neg hc]
      simp only [List.cons_append, List.append_eq]
      obtain ⟨d, t, hdt⟩ : ∃ d t, csvEscapeQuotes f' ++ ('"' :: (sep :: rest)) = d :: t := by
        cases h : csvEscapeQuotes f' ++ ('"' :: (sep :: rest)) with
        | nil => exact absurd h (by simp)
        | cons d t => exact ⟨d, t, rfl⟩
      rw [hdt]
      simp only [parseQuoted]
      rw [if_neg hc, ← hdt, ih sep rest hsep]

lemma parseField_csvField (f : List Char) (sep : Char) (rest : List Char)
    (hsep : sep = ',' ∨ sep = '\n') :
    parseField (csvField f ++ (sep :: rest)) = (f, sep :: rest) := by
  unfold csvField
  by_cases hq : csvNeedsQuoting f = true
  · rw [if_pos hq]
    rw [show ('"' :: (csvEscapeQuotes f ++ ['"'])) ++ (sep :: rest) =
        '"' :: (csvEscapeQuotes f ++ ('"' :: (sep :: rest))) by simp]
    simp only [parseField, if_true]
    exact parseQuoted_escape f sep rest hsep
  · rw [if_neg hq]
    have hmem : ∀ c ∈ f, ¬(c = ',' ∨ c = '"' ∨ c = '\r' ∨ c = '\n') := by
      intro c hc hor
      apply hq
      unfold csvNeedsQuoting
      rw [List.any_eq_true]
      refine ⟨c, hc, ?_⟩
      rcases hor with rfl | rfl | rfl | rfl <;> decide
    cases f with
    | nil =>
      have hsep' : ¬(sep = '"') := by rcases hsep with rfl | rfl <;> decide
      simp only [List.nil_append, parseField]
      rw [if_neg hsep']
      simp only [parseUnquoted]
      rw [if_pos hsep]
    | cons c f' =>
      have hc : ¬(c = '"') := fun h =>
        hmem c (List.mem_cons_self c f') (Or.inr (Or.inl h))
      simp only [List.cons_append, parseField]
      rw [if_neg hc]
      rw [show (c :: (f' ++ (sep :: rest))) = (c :: f') ++ (sep :: rest) by simp]
      exact parseUnquoted_clean (c :: f') sep rest hsep
        (fun d hd hor => hmem d hd
          (hor.elim (fun h => Or.inl h) (fun h => Or.inr (Or.inr (Or.inr h)))))

lemma parseRecordAux_rowBody (fs : List (List Char)) :
    ∀ (rest : List Char) (fuel : Nat), fs ≠ [] → fs.length ≤ fuel →
      parseRecordAux fuel (rowBody fs ++ ('\n' :: rest)) = (fs, rest) := by
  induction fs with
  | nil => intro rest fuel h _; exact absurd rfl h
  | cons f fs' ih =>
    intro rest fuel _ hfuel
    obtain ⟨fuel', rfl⟩ : ∃ k, fuel = k + 1 := ⟨fuel - 1, by simp at hfuel; omega⟩
    cases fs' with
    | nil =>
      show parseRecordAux (fuel' + 1) (rowBody [f] ++ ('\n' :: rest)) = ([f], rest)
      rw [show rowBody [f] = csvField f from rfl]
      simp only [parseRecordAux, parseField_csvField f '\n' rest (Or.inr rfl)]
      simp
    | cons f2 fs'' =>
      show parseRecordAux (fuel' + 1) (rowBody (f :: f2 :: fs'') ++ ('\n' :: rest)) = _
      rw [show rowBody (f :: f2 :: fs'') ++ ('\n' :: rest) =
          csvField f ++ (',' :: (rowBody (f2 :: fs'') ++ ('\n' :: rest))) by
        simp [rowBody]]
      simp only [parseRecordAux, parseField_csvField f ',' _ (Or.inl rfl)]
      simp [ih rest fuel' (by simp) (by simp at hfuel ⊢; omega)]

/-- The writer's file text as a list of records with CR LF terminators. -/
def crlfRowsText : List (List (List Char)) → List Char
  | [] => []
  | fs :: rest => (rowBody fs ++ ['\r', '\n']) ++ crlfRowsText rest

/-- The same records with LF terminators, as the reader sees them after
universal-newline translation. -/
def lfRowsText : List (List (List Char)) → List Char
  | [] => []
  | fs :: rest => rowBody fs ++ ('\n' :: lfRowsText rest)

lemma save_to_csv_eq (qs : List Question) :
    save_to_csv qs = crlfRowsText (csvHeaderFields :: qs.map questionFields) := by
  simp only [save_to_csv, crlfRowsText]
  congr 1
  induction qs with
  | nil => rfl
  | cons q rest ih => simp only [csvRowsText, List.map_cons, crlfRowsText, ih]

lemma universalNewlines_no_cr_step (b : List Char) :
    ∀ rest : List Char, (∀ c ∈ b, c ≠ '\r') →
      universalNewlines (b ++ ('\r' :: ('\n' :: rest))) =
        b ++ ('\n' :: universalNewlines rest) := by
  induction b with
  | nil =>
    intro rest _
    simp [universalNewlines]
  | cons c b' ih =>
    intro rest hmem
    obtain ⟨d, t, hdt⟩ : ∃ d t, b' ++ ('\r' :: ('\n' :: rest)) = d :: t := by
      cases h : b' ++ ('\r' :: ('\n' :: rest)) with
      | nil => exact absurd h (by simp)
      | cons d t => exact ⟨d, t, rfl⟩
    rw [List.cons_append, hdt]
    simp only [universalNewlines]
    rw [if_neg (hmem c (List.mem_cons_self c b'))]
    rw [← hdt, ih rest (fun d' hd' => hmem d' (List.mem_cons_of_mem c hd'))]
    simp

lemma universalNewlines_rows (rows : List (List (List Char)))
    (hnocr : ∀ fs ∈ rows, ∀ c ∈ rowBody fs, c ≠ '\r') :
    universalNewlines (crlfRowsText rows) = lfRowsText rows := by
  induction rows with
  | nil => rfl
  | cons fs rest ih =>
    simp only [crlfRowsText, lfRowsText]
    rw [show (rowBody fs ++ ['\r', '\n']) ++ crlfRowsText rest =
        rowBody fs ++ ('\r' :: ('\n' :: crlfRowsText rest)) by simp]
    rw [universalNewlines_no_cr_step (rowBody fs) (crlfRowsText rest)
      (hnocr fs (List.mem_cons_self fs rest))]
    rw [ih (fun fs' h' c hc => hnocr fs' (List.mem_cons_of_mem fs h') c hc)]

lemma rowBody_length_ge (fs : List (List Char)) : fs.length ≤ (rowBody fs).length + 1 := by
  induction fs with
  | nil => simp [rowBody]
  | cons f fs' ih =>
    cases fs' with
    | nil => simp [rowBody]
    | cons f2 fs'' =>
      simp only [rowBody, List.length_cons, List.length_append] at ih ⊢
      omega

lemma lfRowsText_length_ge (rows : List (List (List Char))) :
    rows.length ≤ (lfRowsText rows).length := by
  induction rows with
  | nil => simp [lfRowsText]
  | cons fs rest ih =>
    simp only [lfRowsText, List.length_cons, List.length_append]
    omega

lemma parseRecordsAux_rows (rows : List (List (List Char))) :
    ∀ fuel : Nat, (∀ fs ∈ rows, fs ≠ []) → rows.length ≤ fuel →
      parseRecordsAux fuel (lfRowsText rows) = rows := by
  induction rows with
  | nil =>
    intro fuel _ _
    cases fuel <;> rfl
  | cons fs rest ih =>
    intro fuel hne hfuel
    obtain ⟨fuel', rfl⟩ : ∃ k, fuel = k + 1 := ⟨fuel - 1, by simp at hfuel; omega⟩
    obtain ⟨d, t, hdt⟩ : ∃ d t, lfRowsText (fs :: rest) = d :: t := by
      cases h : lfRowsText (fs :: rest) with
      | nil =>
        exfalso
        have h2 := congrArg List.length h
        simp [lfRowsText] at h2
      | cons d t => exact ⟨d, t, rfl⟩
    rw [hdt]
    simp only [parseRecordsAux]
    rw [← hdt]
    rw [show lfRowsText (fs :: rest) = rowBody fs ++ ('\n' :: lfRowsText rest) from rfl]
    rw [parseRecordAux_rowBody fs (lfRowsText rest) _
      (hne fs (List.mem_cons_self fs rest))
      (by
        have h1 := rowBody_length_ge fs
        simp only [List.length_append, List.length_cons]
        omega)]
    show fs :: parseRecordsAux fuel' (lfRowsText rest) = fs :: rest
    rw [ih fuel' (fun a ha => hne a (List.mem_cons_of_mem fs ha))
      (by simp at hfuel ⊢; omega)]

lemma mem_csvEscapeQuotes (f : List Char) (c : Char) (h : c ∈ csvEscapeQuotes f) :
    c = '"' ∨ c ∈ f := by
  induction f with
  | nil => simp [csvEscapeQuotes] at h
  | cons d f' ih =>
    simp only [csvEscapeQuotes] at h
    by_cases hd : d = '"'
    · rw [if_pos hd] at h
      rcases List.mem_cons.1 h with rfl | h2
      · exact Or.inl rfl
      · rcases List.mem_cons.1 h2 with rfl | h3
        · exact Or.inl rfl
        · rcases ih h3 with h4 | h4
          · exact Or.inl h4
          · exact Or.inr (List.mem_cons_of_mem d h4)
    · rw [if_neg hd] at h
      rcases List.mem_cons.1 h with rfl | h2
      · exact Or.inr (List.mem_cons_self _ _)
      · rcases ih h2 with h4 | h4
        · exact Or.inl h4
        · exact Or.inr (List.mem_cons_of_mem d h4)

lemma mem_csvField (f : List Char) (c : Char) (h : c ∈ csvField f) :
    c = '"' ∨ c ∈ f := by
  unfold csvField at h
  by_cases hq : csvNeedsQuoting f = true
  · rw [if_pos hq] at h
    rcases List.mem_cons.1 h with rfl | h2
    · exact Or.inl rfl
    · rcases List.mem_append.1 h2 with h3 | h3
      · exact mem_csvEscapeQuotes f c h3
      · simp at h3; exact Or.inl h3
  · rw [if_neg hq] at h
    exact Or.inr h

lemma mem_rowBody (fs : List (List Char)) (c : Char) (h : c ∈ rowBody fs) :
    c = ',' ∨ ∃ f ∈ fs, c ∈ csvField f := by
  induction fs with
  | nil => simp [rowBody] at h
  | cons f fs' ih =>
    cases fs' with
    | nil =>
      simp only [rowBody] at h
      exact Or.inr ⟨f, List.mem_cons_self f [], h⟩
    | cons f2 fs'' =>
      simp only [rowBody] at h
      rcases List.mem_append.1 h with h2 | h2
      · exact Or.inr ⟨f, List.mem_cons_self _ _, h2⟩
      · rcases List.mem_cons.1 h2 with rfl | h3
        · exact Or.inl rfl
        · rcases ih h3 with h4 | h4
          · exact Or.inl h4
          · obtain ⟨f', hf', hcf'⟩ := h4
            exact Or.inr ⟨f', List.mem_cons_of_mem f hf', hcf'⟩

lemma hexDigitChar_lt_ne_cr : ∀ n, n < 16 → hexDigitChar n ≠ '\r' := by decide

lemma mem_jsonEscapeChar_ne_cr (d c : Char) (h : c ∈ jsonEscapeChar d) : c ≠ '\r' := by
  rintro rfl
  unfold jsonEscapeChar at h
  split_ifs at h with h1 h2 h3 h4 h5 h6 h7 h8
  · simp at h
  · simp at h
  · simp at h
  · simp at h
  · simp at h
  · simp at h
  · simp at h
  · simp at h
    rcases h with h | h
    · exact hexDigitChar_lt_ne_cr _ (by omega) h.symm
    · exact hexDigitChar_lt_ne_cr _ (by omega) h.symm
  · simp at h
    exact h4 h.symm

lemma mem_escText_ne_cr (s : List Char) (c : Char) (h : c ∈ escText s) : c ≠ '\r' := by
  induction s with
  | nil => simp [escText] at h
  | cons d s' ih =>
    simp only [escText] at h
    rcases List.mem_append.1 h with h2 | h2
    · exact mem_jsonEscapeChar_ne_cr d c h2
    · exact ih h2

lemma mem_jsonString_ne_cr (s : List Char) (c : Char) (h : c ∈ jsonString s) :
    c ≠ '\r' := by
  unfold jsonString at h
  rcases List.mem_cons.1 h with rfl | h2
  · decide
  · rcases List.mem_append.1 h2 with h3 | h3
    · exact mem_escText_ne_cr s c h3
    · simp at h3; subst h3; decide

lemma mem_jsonItems_ne_cr (l : List (List Char)) (c : Char) (h : c ∈ jsonItems l) :
    c ≠ '\r' := by
  induction l with
  | nil => simp [jsonItems] at h
  | cons v l' ih =>
    cases l' with
    | nil =>
      simp only [jsonItems] at h
      exact mem_jsonString_ne_cr v c h
    | cons v2 l'' =>
      simp only [jsonItems] at h
      rcases List.mem_append.1 h with h2 | h2
      · exact mem_jsonString_ne_cr v c h2
      · rcases List.mem_cons.1 h2 with rfl | h3
        · decide
        · rcases List.mem_cons.1 h3 with rfl | h4
          · decide
          · exact ih h4

lemma mem_jsonEncodeList_ne_cr (l : List (List Char)) (c : Char)
    (h : c ∈ jsonEncodeList l) : c ≠ '\r' := by
  unfold jsonEncodeList at h
  rcases List.mem_cons.1 h with rfl | h2
  · decide
  · rcases List.mem_append.1 h2 with h3 | h3
    · exact mem_jsonItems_ne_cr l c h3
    · simp at h3; subst h3; decide

lemma rowBody_questionFields_ne_cr (q : Question)
    (hq1 : ∀ c ∈ q.QUESTION, c ≠ '\r') (hq2 : ∀ c ∈ q.EXPLANATIONS, c ≠ '\r') :
    ∀ c ∈ rowBody (questionFields q), c ≠ '\r' := by
  intro c hc
  rcases mem_rowBody _ c hc with h | h
  · subst h; decide
  · obtain ⟨f, hf, hcf⟩ := h
    rcases mem_csvField f c hcf with h2 | h2
    · subst h2; decide
    · simp only [questionFields, List.mem_cons, List.not_mem_nil, or_false] at hf
      rcases hf with rfl | rfl | rfl | rfl
      · exact hq1 c h2
      · exact mem_jsonEncodeList_ne_cr _ c h2
      · exact mem_jsonEncodeList_ne_cr _ c h2
      · exact hq2 c h2

lemma loadRows_questionFields (qs : List Question) :
    loadRows (qs.map questionFields) = qs.map questionData := by
  induction qs with
  | nil => rfl
  | cons q rest ih =>
    simp only [List.map_cons, questionFields, loadRows]
    rw [json_loads_roundtrip, json_loads_roundtrip, ih]
    rfl

/-- The save/load cycle is lossless on carriage-return-free cells: for
every question list in which no stem and no explanations text contains a
carriage return, `_load_questions` of `save_to_csv` reproduces every
stem, ordered option list and correct-answer list.  (Option texts are
safe for any content because `json.dumps` escapes control characters.)
Every question the parser actually emits satisfies the hypothesis, since
the README itself is read through universal-newline translation. -/
lemma load_save_roundtrip_of_no_cr (qs : List Question)
    (h : ∀ q ∈ qs, ('\r' ∉ q.QUESTION) ∧ ('\r' ∉ q.EXPLANATIONS)) :
    load_questions (save_to_csv qs) = qs.map questionData := by
  have hrows : ∀ fs ∈ (csvHeaderFields :: qs.map questionFields),
      ∀ c ∈ rowBody fs, c ≠ '\r' := by
    intro fs hfs
    rcases List.mem_cons.1 hfs with rfl | hfs2
    · decide
    · obtain ⟨q, hq, rfl⟩ := List.mem_map.1 hfs2
      exact rowBody_questionFields_ne_cr q
        (fun c hc hceq => (h q hq).1 (hceq ▸ hc))
        (fun c hc hceq => (h q hq).2 (hceq ▸ hc))
  have hne : ∀ fs ∈ (csvHeaderFields :: qs.map questionFields), fs ≠ [] := by
    intro fs hfs
    rcases List.mem_cons.1 hfs with rfl | hfs2
    · simp [csvHeaderFields]
    · obtain ⟨q, hq, rfl⟩ := List.mem_map.1 hfs2
      simp [questionFields]
  rw [save_to_csv_eq]
  unfold load_questions
  rw [universalNewlines_rows _ hrows]
  rw [show parseRecords (lfRowsText (csvHeaderFields :: qs.map questionFields)) =
      parseRecordsAux
        ((lfRowsText (csvHeaderFields :: qs.map questionFields)).length + 1)
        (lfRowsText (csvHeaderFields :: qs.map questionFields)) from rfl]
  rw [parseRecordsAux_rows _ _ hne
    (by
      have h1 := lfRowsText_length_ge (csvHeaderFields :: qs.map questionFields)
      omega)]
  show (if csvHeaderFields = csvHeaderFields then loadRows (qs.map questionFields)
        else []) = qs.map questionData
  rw [if_pos rfl, loadRows_questionFields]

lemma universalNewlines_no_cr : ∀ s : List Char, ∀ c ∈ universalNewlines s, c ≠ '\r'
  | [] => by simp [universalNewlines]
  | [c0] => by
    intro c hc
    by_cases h : c0 = '\r'
    · simp only [universalNewlines, if_pos h, List.mem_singleton] at hc
      subst hc; decide
    · simp only [universalNewlines, if_neg h, List.mem_singleton] at hc
      subst hc; exact h
  | c0 :: c1 :: rest => by
    intro c hc
    simp only [universalNewlines] at hc
    by_cases h : c0 = '\r'
    · rw [if_pos h] at hc
      by_cases h1 : c1 = '\n'
      · rw [if_pos h1] at hc
        rcases List.mem_cons.1 hc with rfl | hc2
        · decide
        · exact universalNewlines_no_cr rest c hc2
      · rw [if_neg h1] at hc
        rcases List.mem_cons.1 hc with rfl | hc2
        · decide
        · exact universalNewlines_no_cr (c1 :: rest) c hc2
    · rw [if_neg h] at hc
      rcases List.mem_cons.1 hc with rfl | hc2
      · exact h
      · exact universalNewlines_no_cr (c1 :: rest) c hc2

lemma mem_splitSecAux (fuel : Nat) :
    ∀ (s acc sec : List Char), sec ∈ splitSecAux fuel s acc →
      ∀ c ∈ sec, c ∈ s ∨ c ∈ acc := by
  induction fuel with
  | zero =>
    intro s acc sec hsec c hc
    simp only [splitSecAux, List.mem_singleton] at hsec
    subst hsec
    rcases List.mem_append.1 hc with h | h
    · exact Or.inr (List.mem_reverse.1 h)
    · exact Or.inl h
  | succ fuel ih =>
    intro s acc sec hsec c hc
    cases s with
    | nil =>
      simp only [splitSecAux, List.mem_singleton] at hsec
      subst hsec
      exact Or.inr (List.mem_reverse.1 hc)
    | cons c0 rest =>
      simp only [splitSecAux] at hsec
      by_cases hp : sectionSep.isPrefixOf (c0 :: rest) = true
      · rw [if_pos hp] at hsec
        rcases List.mem_cons.1 hsec with rfl | h2
        · exact Or.inr (List.mem_reverse.1 hc)
        · rcases ih (List.drop 5 (c0 :: rest)) [] sec h2 c hc with h3 | h3
          · exact Or.inl ((List.drop_sublist 5 (c0 :: rest)).subset h3)
          · simp at h3
      · rw [if_neg hp] at hsec
        rcases ih rest (c0 :: acc) sec hsec c hc with h3 | h3
        · exact Or.inl (List.mem_cons_of_mem c0 h3)
        · rcases List.mem_cons.1 h3 with rfl | h4
          · exact Or.inl (List.mem_cons_self _ _)
          · exact Or.inr h4

lemma mem_splitSections (content sec : List Char)
    (h : sec ∈ splitSections content) : ∀ c ∈ sec, c ∈ content := by
  intro c hc
  rcases mem_splitSecAux _ content [] sec h c hc with h2 | h2
  · exact h2
  · simp at h2

lemma pyStrip_subset (s : List Char) : ∀ c ∈ pyStrip s, c ∈ s := by
  intro c hc
  unfold pyStrip at hc
  rw [List.mem_reverse] at hc
  have h1 : c ∈ (s.dropWhile isPySpace).reverse :=
    (List.dropWhile_sublist _).subset hc
  rw [List.mem_reverse] at h1
  exact (List.dropWhile_sublist _).subset h1

lemma mem_splitOnChar (sep : Char) :
    ∀ (s l : List Char), l ∈ splitOnChar sep s → ∀ c ∈ l, c ∈ s := by
  intro s
  induction s with
  | nil =>
    intro l hl c hc
    simp only [splitOnChar, List.mem_singleton] at hl
    subst hl
    simp at hc
  | cons c0 rest ih =>
    intro l hl c hc
    simp only [splitOnChar] at hl
    by_cases h : c0 = sep
    · rw [if_pos h] at hl
      rcases List.mem_cons.1 hl with rfl | h2
      · simp at hc
      · exact List.mem_cons_of_mem c0 (ih l h2 c hc)
    · rw [if_neg h] at hl
      cases hsp : splitOnChar sep rest with
      | nil =>
        rw [hsp] at hl
        simp only [List.mem_singleton] at hl
        subst hl
        rcases List.mem_cons.1 hc with rfl | h3
        · exact List.mem_cons_self _ _
        · simp at h3
      | cons m ms =>
        rw [hsp] at hl
        rcases List.mem_cons.1 hl with rfl | h2
        · rcases List.mem_cons.1 hc with rfl | h3
          · exact List.mem_cons_self _ _
          · exact List.mem_cons_of_mem c0
              (ih m (by rw [hsp]; exact List.mem_cons_self _ _) c h3)
        · exact List.mem_cons_of_mem c0
            (ih l (by rw [hsp]; exact List.mem_cons_of_mem m h2) c hc)

lemma parseSection_question_chars (sec : List Char) (q : Question)
    (h : parseSection sec = some q) : ∀ c ∈ q.QUESTION, c ∈ sec := by
  intro c hc
  obtain ⟨hq, -, -, -, -, -⟩ := parseSection_some_anatomy sec q h
  rw [hq] at hc
  have h1 : c ∈ (splitLines (pyStrip sec)).headD [] := pyStrip_subset _ c hc
  have h2 : c ∈ pyStrip sec := by
    cases hsl : splitLines (pyStrip sec) with
    | nil => rw [hsl] at h1; simp at h1
    | cons l0 ls =>
      rw [hsl, List.headD_cons] at h1
      have hl0 : l0 ∈ splitOnChar '\n' (pyStrip sec) := by
        rw [show splitOnChar '\n' (pyStrip sec) = splitLines (pyStrip sec) from rfl,
          hsl]
        exact List.mem_cons_self _ _
      exact mem_splitOnChar '\n' (pyStrip sec) l0 hl0 c h1
  exact pyStrip_subset sec c h2

/-- C7: for every list of parsed questions, saving with `save_to_csv`
and loading back with `AWSQuizAgent._load_questions` recovers, for every
question, the same stem, ordered option list and correct-answer list.
The README itself is read in text mode, so universal-newline translation
leaves no carriage return in any parsed stem; every other cell content
(commas, quotes, even embedded line feeds) survives the csv quoting, the
text-mode translation on re-read, and the JSON encoding of the lists. -/
theorem csv_roundtrip (content : List Char) :
    load_questions (save_to_csv (extract_questions_from_readme content)) =
      (extract_questions_from_readme content).map questionData := by
  apply load_save_roundtrip_of_no_cr
  intro q hq
  obtain ⟨sec, hsec, hps⟩ := extract_mem_anatomy content q hq
  constructor
  · intro hcr
    have h1 : '\r' ∈ sec := parseSection_question_chars sec q hps '\r' hcr
    have h2 : '\r' ∈ universalNewlines content :=
      mem_splitSections _ sec hsec '\r' h1
    exact universalNewlines_no_cr content '\r' h2 rfl
  · rw [(parseSection_some_anatomy sec q hps).2.2.2.1]
    simp
